import Mathlib

/-!
Verification of the product-browser page (`src/unnamed/part_000`, a Nuxt/Vue
single-file component).  The script part of the component is shallowly
embedded below: every `computed` becomes a pure Lean function of its inputs,
the `onMounted` fetch loop becomes explicit recursion over the skip offset,
fallible requests become `Except`-valued functions, and JavaScript's
in-place, stable `Array.prototype.sort` is modelled by `List.mergeSort`
(stable by the ECMAScript 2019 requirement on `sort`).
JavaScript numbers appearing in `Product` fields (`id`, `price`, `rating`)
are modelled as `Int`; JS `String(n)` on such a number is decimal rendering,
modelled by `toString : Int → String`.
-/

namespace NuxtLab

/-- A JavaScript value stored in a `Product` field: either a number or a
string.  (`Object.values(product)` yields values of both kinds.) -/
inductive JSVal where
  | num (n : Int)
  | str (s : String)
deriving DecidableEq, Repr

/-- The `Product` interface of the component (`id`, `title`, `description`,
`price`, `rating`, `brand`, `category`, `thumbnail`).  Numeric JS fields are
modelled as `Int`. -/
structure Product where
  id : Int
  title : String
  description : String
  price : Int
  rating : Int
  brand : String
  category : String
  thumbnail : String
deriving DecidableEq, Repr

/-- JS `String(val)` for a field value: numbers render in decimal, strings
are unchanged. -/
def jsString : JSVal → String
  | .num n => toString n
  | .str s => s

/-- JS `String.prototype.toLowerCase`, modelled character-wise on the
string's character list. -/
def jsToLower (s : String) : String := String.mk (s.data.map Char.toLower)

/-- JS `hay.includes(needle)`: `needle` occurs as a contiguous substring of
`hay`.  Modelled as list-infix on the character lists (decidable, hence a
`Bool` like the JS expression). -/
def jsIncludes (hay needle : String) : Bool := decide (needle.data <:+: hay.data)

/-- The field values `Object.values(product)`, in the declaration order of
the `Product` interface. -/
def productValues (p : Product) : List JSVal :=
  [.num p.id, .str p.title, .str p.description, .num p.price, .num p.rating,
   .str p.brand, .str p.category, .str p.thumbnail]

/-- The filter predicate of `filteredProducts`:
`Object.values(product).some(val =>
  String(val).toLowerCase().includes(search.toLowerCase()))`. -/
def productMatches (search : String) (p : Product) : Bool :=
  (productValues p).any fun v => jsIncludes (jsToLower (jsString v)) (jsToLower search)

/-- The `filteredProducts` computed: for a falsy (empty) search string the
products list is returned unchanged, otherwise `products.filter(...)`. -/
def filteredProducts (products : List Product) (search : String) : List Product :=
  if search = "" then products
  else products.filter (productMatches search)

/-- The sort columns offered by the select control (`sort.column`). -/
inductive SortColumn where
  | title | price | rating | brand | category
deriving DecidableEq, Repr

/-- The sort direction (`sort.direction`), toggled between `'asc'` and
`'desc'`. -/
inductive SortDirection where
  | asc | desc
deriving DecidableEq, Repr

/-- Dynamic field access `a[column as keyof Product]` for the sortable
columns. -/
def getColumn (p : Product) (c : SortColumn) : JSVal :=
  match c with
  | .title => .str p.title
  | .price => .num p.price
  | .rating => .num p.rating
  | .brand => .str p.brand
  | .category => .str p.category

/-- Strict lexicographic comparison of character lists (the standard string
order, written out so that it is directly executable). -/
def lexLt : List Char → List Char → Bool
  | [], [] => false
  | [], _ :: _ => true
  | _ :: _, [] => false
  | a :: as, b :: bs =>
    if a < b then true
    else if b < a then false
    else lexLt as bs

/-- JS `a.localeCompare(b)`, modelled as the default lexicographic string
order (the locale chosen by the environment is modelled as the standard
order on the strings' characters): negative, zero or positive according to
the comparison. -/
def localeCompare (a b : String) : Int :=
  if lexLt a.data b.data then -1 else if lexLt b.data a.data then 1 else 0

/-- The comparator body of `sortedFilteredProducts`: string values use
`localeCompare` (operands swapped for descending), numeric values use
subtraction (swapped for descending), and any other combination returns 0. -/
def compareVals (direction : SortDirection) (aVal bVal : JSVal) : Int :=
  match aVal, bVal with
  | .str a, .str b =>
    match direction with
    | .asc => localeCompare a b
    | .desc => localeCompare b a
  | .num a, .num b =>
    match direction with
    | .asc => a - b
    | .desc => b - a
  | _, _ => 0

/-- The full comparator passed to `items.sort((a, b) => ...)`. -/
def productCompare (c : SortColumn) (d : SortDirection) (a b : Product) : Int :=
  compareVals d (getColumn a c) (getColumn b c)

/-- JS `Array.prototype.sort` with a comparator, on a copy of the array:
stable (ECMAScript 2019), ordering `a` no later than `b` when
`cmp a b ≤ 0`.  Modelled by the stable `List.mergeSort`. -/
def jsSortBy (cmp : Product → Product → Int) (l : List Product) : List Product :=
  l.mergeSort fun a b => cmp a b ≤ 0

/-- The `sortedFilteredProducts` computed, as a function of the filtered
list and the sort spec: `filteredProducts.value.slice()` sorted in place by
the comparator (the slice makes the sort act on a fresh copy). -/
def sortProducts (filtered : List Product) (c : SortColumn) (d : SortDirection) :
    List Product :=
  jsSortBy (productCompare c d) filtered

/-- The fixed page size of the component (`const pageSize = 10`). -/
def pageSize : Nat := 10

/-- The `paginatedProducts` computed:
`sortedFilteredProducts.value.slice(start, start + pageSize)` with
`start = (page - 1) * pageSize`.  `page` is 1-based. -/
def paginatedProducts (sorted : List Product) (page : Nat) : List Product :=
  ((sorted.drop ((page - 1) * pageSize)).take pageSize)

/-- The fixed remote page size of the fetch loop (`const limit = 30`). -/
def limit : Nat := 30

/-- The skip offsets at which the `onMounted` loop issues page requests:
`for (let skip = 0; skip < total; skip += limit)`. -/
def fetchSkips (total skip : Nat) : List Nat :=
  if skip < total then skip :: fetchSkips total (skip + limit) else []
termination_by total - skip
decreasing_by simp [limit]; omega

/-- The records accumulated by the fetch loop on the success path, given the
page returned at each skip (`none` models a response object without a
usable `products` field, skipped by `if (res?.products)`). -/
def fetchConcat (pages : Nat → Option (List Product)) (total skip : Nat) : List Product :=
  if skip < total then (pages skip).getD [] ++ fetchConcat pages total (skip + limit)
  else []
termination_by total - skip
decreasing_by simp [limit]; omega

/-- The probe response of `$fetch('...?limit=1')`: only its `total` field is
used; `none` models an absent field. -/
structure ProbeResp where
  total : Option Nat

/-- JS `v || d` for a possibly-absent numeric field `v`: the fallback `d` is
used when the field is absent or falsy (in particular when it is `0`). -/
def jsOrDefault (v : Option Nat) (d : Nat) : Nat :=
  match v with
  | some n => if n = 0 then d else n
  | none => d

/-- The fetch loop with fallible requests: each `$fetch` either throws
(`Except.error`) or returns a page (`Option (List Product)`, `none` when the
`products` field is missing).  The first throw aborts the whole loop; on
success the pages are concatenated in response order. -/
def fetchPagesE (req : Nat → Except Unit (Option (List Product))) (total skip : Nat) :
    Except Unit (List Product) :=
  if skip < total then do
    let res ← req skip
    let rest ← fetchPagesE req total (skip + limit)
    pure (res.getD [] ++ rest)
  else pure []
termination_by total - skip
decreasing_by simp [limit]; omega

/-- The whole `onMounted` handler, as a function from the probe outcome and
the page-request outcomes to the final `(products, loading)` state:
`try { loading := true; probe; loop; products := result }
 catch (err) { console.error(...) } finally { loading := false }`.
On any throw the `products` ref keeps its initial value `[]`; the `finally`
clears `loading` on every path, and no exception escapes (the function is
total). -/
def runMounted (probe : Except Unit ProbeResp)
    (req : Nat → Except Unit (Option (List Product))) : List Product × Bool :=
  let body : Except Unit (List Product) := do
    let initial ← probe
    fetchPagesE req (jsOrDefault initial.total 100) 0
  match body with
  | .ok r => (r, false)
  | .error _ => ([], false)

/-- The reactive sort spec `ref({ column: 'title', direction: 'asc' })`. -/
structure SortSpec where
  column : SortColumn
  direction : SortDirection
deriving DecidableEq, Repr

/-- The reactive state of the component that the user can change after the
initial load: the `search`, `sort` and `page` refs, plus the fetched
`products`. -/
structure UIState where
  products : List Product
  search : String
  sort : SortSpec
  page : Nat
deriving DecidableEq, Repr

/-- The user interactions wired in the template: typing a search string
(`v-model="search"`), picking a sort column (`v-model="sort.column"`),
pressing the direction toggle (`toggleSortDirection`), and selecting a page
(`v-model="page"` on the pagination control). -/
inductive UIEvent where
  | setSearch (s : String)
  | setSortColumn (c : SortColumn)
  | toggleSortDirection
  | setPage (p : Nat)

/-- The handler `toggleSortDirection`: `'asc' ↔ 'desc'`. -/
def toggleDirection : SortDirection → SortDirection
  | .asc => .desc
  | .desc => .asc

/-- One user event processed by the component, including the effect of
`watch([filteredProducts, sort], () => { page.value = 1 })` under Vue's
watch semantics:

* `filteredProducts` is a computed ref; a genuine change of `search` (a ref
  setter is a no-op when the new value is `Object.is`-equal to the old one)
  recomputes it to a fresh array, so its value changes identity and the
  watcher fires, resetting `page` to 1.
* `sort` is a `ref` holding an object that is only ever mutated in place
  (`sort.value.column = ...`, `sort.value.direction = ...`), never replaced.
  A watcher on a ref source without `deep: true` only tracks replacement of
  `.value`, so mutations of `column`/`direction` never fire this watcher and
  `page` is left unchanged.
* `page` itself is not among the watch sources, so changing it triggers no
  reset. -/
def step (st : UIState) (e : UIEvent) : UIState :=
  match e with
  | .setSearch s =>
    if s = st.search then st
    else { st with search := s, page := 1 }
  | .setSortColumn c => { st with sort := { st.sort with column := c } }
  | .toggleSortDirection =>
    { st with sort := { st.sort with direction := toggleDirection st.sort.direction } }
  | .setPage p => { st with page := p }

/-- A store of JS arrays, for stating that the sort engine does not mutate
its caller's array: arrays live at indices (references) and JS aliasing is
reference sharing. -/
structure Heap where
  arrays : List (List Product)
deriving Repr

/-- Dereference an array. -/
def Heap.read (h : Heap) (r : Nat) : List Product := h.arrays.getD r []

/-- Allocate a fresh array, returning its reference. -/
def Heap.alloc (h : Heap) (a : List Product) : Heap × Nat :=
  (⟨h.arrays ++ [a]⟩, h.arrays.length)

/-- Overwrite the array at a reference. -/
def Heap.write (h : Heap) (r : Nat) (a : List Product) : Heap :=
  ⟨h.arrays.set r a⟩

/-- JS `arr.slice()`: allocate a fresh copy of the array at `r`. -/
def jsSlice (h : Heap) (r : Nat) : Heap × Nat := h.alloc (h.read r)

/-- JS `arr.sort(cmp)`: sort the array at `r` in place. -/
def jsSortInPlace (h : Heap) (r : Nat) (cmp : Product → Product → Int) : Heap :=
  h.write r (jsSortBy cmp (h.read r))

/-- The body of the `sortedFilteredProducts` computed, at the level of array
references: `const items = filteredProducts.value.slice()` followed by
`items.sort((a, b) => ...)`, returning the reference to the sorted copy.
`fr` is the reference to the current `filteredProducts` array. -/
def computeSortedRef (h : Heap) (fr : Nat) (c : SortColumn) (d : SortDirection) :
    Heap × Nat :=
  let alloc := jsSlice h fr
  (jsSortInPlace alloc.1 alloc.2 (productCompare c d), alloc.2)

/-- A sample record (concrete instances are used to instantiate proved
theorems at closed inputs). -/
def prodA : Product :=
  { id := 1, title := "Alpha", description := "first item", price := 10,
    rating := 4, brand := "Acme", category := "tools", thumbnail := "a.png" }

/-- A second sample record with keys distinct from `prodA` in every
column. -/
def prodB : Product :=
  { id := 2, title := "Beta", description := "second item", price := 20,
    rating := 5, brand := "Zenith", category := "toys", thumbnail := "b.png" }

/-- A record sharing its `title` with `prodA` (for the stability claim). -/
def prodA2 : Product :=
  { id := 3, title := "Alpha", description := "third item", price := 30,
    rating := 3, brand := "Mid", category := "tools", thumbnail := "c.png" }

/-- A sample reactive state: both products loaded, no search, title
ascending, page 3. -/
def sampleState : UIState :=
  { products := [prodA, prodB], search := "", sort := ⟨.title, .asc⟩, page := 3 }

/-- A sample page-response table: one record at skip 0, an empty page at
skip 30, nothing elsewhere. -/
def pagesW : Nat → Option (List Product) :=
  fun s => if s = 0 then some [prodA] else if s = 30 then some [] else none

/-- Bridge between the executable `includes` test and its substring
characterization. -/
theorem jsIncludes_iff (hay needle : String) :
    jsIncludes hay needle = true ↔
      ∃ pre post : List Char, hay.data = pre ++ needle.data ++ post := by
  rw [jsIncludes, decide_eq_true_eq]
  constructor
  · rintro ⟨s, t, h⟩
    exact ⟨s, t, h.symm⟩
  · rintro ⟨s, t, h⟩
    exact ⟨s, t, h.symm⟩

/-- C8: for every list of records, filtering with the empty query returns
the input unchanged (identity, same records, same order). -/
theorem filter_empty_query_identity (l : List Product) :
    filteredProducts l "" = l := by
  simp [filteredProducts]

/-- C10: a probe response carrying `total = 0` (present but falsy) is
treated exactly like an absent `total`: the fallback 100 is substituted,
and the fetch loop issues requests at skips 0, 30, 60 and 90 instead of
issuing none. -/
theorem probe_total_zero_fallback :
    jsOrDefault (some 0) 100 = jsOrDefault none 100
    ∧ jsOrDefault (some 0) 100 = 100
    ∧ fetchSkips (jsOrDefault (some 0) 100) 0 = [0, 30, 60, 90]
    ∧ fetchSkips 0 0 = [] := by
  refine ⟨rfl, rfl, ?_, ?_⟩
  · simp [jsOrDefault, fetchSkips, limit]
  · simp [fetchSkips]

/-- C1: for a non-empty query, a record is kept by the filter exactly when
at least one of its fields, stringified and lowercased, contains the
lowercased query as a contiguous substring; the output is a subsequence of
the input (relative order preserved). -/
theorem filter_mem_iff_contains_ci (l : List Product) (q : String) (hq : q ≠ "") :
    (∀ p : Product, p ∈ filteredProducts l q ↔
      p ∈ l ∧ ∃ v, v ∈ productValues p ∧
        ∃ pre post : List Char,
          (jsToLower (jsString v)).data = pre ++ (jsToLower q).data ++ post)
    ∧ List.Sublist (filteredProducts l q) l := by
  have hfe : filteredProducts l q = l.filter (productMatches q) := by
    rw [filteredProducts, if_neg hq]
  constructor
  · intro p
    rw [hfe, List.mem_filter]
    refine and_congr_right fun _ => ?_
    rw [productMatches, List.any_eq_true]
    constructor
    · rintro ⟨v, hv, hinc⟩
      exact ⟨v, hv, (jsIncludes_iff _ _).mp hinc⟩
    · rintro ⟨v, hv, hsub⟩
      exact ⟨v, hv, (jsIncludes_iff _ _).mpr hsub⟩
  · rw [hfe]
    exact List.filter_sublist l

/-- Witness for C1 at a concrete query and list. -/
theorem filter_mem_iff_contains_ci_witness :
    ("alpha" ≠ "")
    ∧ ((∀ p : Product, p ∈ filteredProducts [prodA, prodB] "alpha" ↔
        p ∈ [prodA, prodB] ∧ ∃ v, v ∈ productValues p ∧
          ∃ pre post : List Char,
            (jsToLower (jsString v)).data = pre ++ (jsToLower "alpha").data ++ post)
      ∧ List.Sublist (filteredProducts [prodA, prodB] "alpha") [prodA, prodB]) :=
  ⟨by decide, filter_mem_iff_contains_ci [prodA, prodB] "alpha" (by decide)⟩

/-- One step of the ceiling division `(n + p - 1) / p` along the fetch or
pagination loop: consuming one page of size `p` lowers the page count by
one. -/
theorem ceil_div_succ_step {n p : Nat} (hp : 0 < p) (hn : 0 < n) :
    (n + p - 1) / p = (n - p + p - 1) / p + 1 := by
  rcases le_or_lt n p with h | h
  · have h1 : n - p = 0 := by omega
    have h2 : (n + p - 1) / p = 1 := by
      apply Nat.div_eq_of_lt_le
      · omega
      · omega
    rw [h1, h2, Nat.div_eq_of_lt (by omega)]
  · have heq : n + p - 1 = (n - p + p - 1) + p := by omega
    rw [heq, Nat.add_div_right _ hp]

/-- Concatenating the successive windows of width `ps` reconstructs the
list. -/
theorem flatten_pages {α : Type} (ps : Nat) (hp : 0 < ps) :
    ∀ (n : Nat) (l : List α), l.length = n →
      ((List.range ((l.length + ps - 1) / ps)).map
        (fun k => (l.drop (k * ps)).take ps)).flatten = l := by
  intro n
  induction n using Nat.strong_induction_on with
  | _ n ih =>
    intro l hn
    rcases Nat.eq_zero_or_pos n with h0 | hpos
    · subst h0
      have hl : l = [] := List.length_eq_zero.mp hn
      subst hl
      simp only [List.length_nil, Nat.zero_add]
      rw [Nat.div_eq_of_lt (by omega)]
      simp
    · have hl0 : 0 < l.length := by rw [hn]; exact hpos
      have hstep : (l.length + ps - 1) / ps = ((l.length - ps) + ps - 1) / ps + 1 :=
        ceil_div_succ_step hp hl0
      rw [hstep, List.range_succ_eq_map]
      simp only [List.map_cons, List.map_map, List.flatten_cons]
      rw [Nat.zero_mul, List.drop_zero]
      have hdl : (l.drop ps).length = l.length - ps := by simp
      have hrest : ((List.range ((l.length - ps + ps - 1) / ps)).map
          ((fun k => (l.drop (k * ps)).take ps) ∘ Nat.succ)).flatten = l.drop ps := by
        have hih := ih (l.length - ps) (by omega) (l.drop ps) hdl
        rw [hdl] at hih
        refine Eq.trans ?_ hih
        congr 1
        apply List.map_congr_left
        intro k hk
        simp only [Function.comp_apply]
        rw [List.drop_drop]
        congr 2
        rw [Nat.succ_mul, Nat.add_comm]
      rw [hrest, List.take_append_drop]

/-- The length of the final window of width `ps`. -/
theorem last_page_length {α : Type} (ps : Nat) (hp : 0 < ps) (l : List α)
    (hl : 0 < l.length) :
    ((l.drop ((((l.length + ps - 1) / ps) - 1) * ps)).take ps).length =
      if l.length % ps = 0 then ps else l.length % ps := by
  have hceil : (l.length + ps - 1) / ps = (l.length - 1) / ps + 1 := by
    have heq : l.length + ps - 1 = (l.length - 1) + ps := by omega
    rw [heq, Nat.add_div_right _ hp]
  have hr : (l.length - 1) % ps < ps := Nat.mod_lt _ hp
  have hdm : ps * ((l.length - 1) / ps) + (l.length - 1) % ps = l.length - 1 :=
    Nat.div_add_mod (l.length - 1) ps
  have hdm2 : ((l.length - 1) / ps) * ps + (l.length - 1) % ps = l.length - 1 := by
    rw [Nat.mul_comm] at hdm
    exact hdm
  rw [hceil]
  simp only [Nat.add_sub_cancel]
  rw [List.length_take, List.length_drop]
  have hnq : l.length - ((l.length - 1) / ps) * ps = (l.length - 1) % ps + 1 := by
    omega
  rw [hnq, Nat.min_eq_right (by omega)]
  have hnm : l.length % ps = ((l.length - 1) % ps + 1) % ps := by
    conv_lhs => rw [show l.length = ps * ((l.length - 1) / ps) + ((l.length - 1) % ps + 1)
      by omega]
    rw [Nat.mul_add_mod]
  by_cases hz : (l.length - 1) % ps + 1 = ps
  · rw [if_pos (by rw [hnm, hz, Nat.mod_self]), hz]
  · have hlt : (l.length - 1) % ps + 1 < ps := by omega
    have hne : l.length % ps = (l.length - 1) % ps + 1 := by
      rw [hnm, Nat.mod_eq_of_lt hlt]
    rw [if_neg (by omega), hne]

/-- C2: `paginatedProducts` is the window
`[(page-1)*pageSize, (page-1)*pageSize + pageSize)` clipped to the list
(empty when the start offset is past the end); concatenating pages
`1..ceil(n / pageSize)` reconstructs the list, and the final page has
length `n % pageSize` (a full `pageSize` when `pageSize` divides `n`). -/
theorem paginate_window_and_reconstruct (l : List Product) (i : Nat) (hi : 1 ≤ i) :
    (paginatedProducts l i).length = min pageSize (l.length - (i - 1) * pageSize)
    ∧ (∀ k, k < pageSize →
        (paginatedProducts l i)[k]? = l[(i - 1) * pageSize + k]?)
    ∧ (l.length ≤ (i - 1) * pageSize → paginatedProducts l i = [])
    ∧ ((List.range ((l.length + pageSize - 1) / pageSize)).map
        (fun k => paginatedProducts l (k + 1))).flatten = l
    ∧ (0 < l.length →
        (paginatedProducts l ((l.length + pageSize - 1) / pageSize)).length =
          if l.length % pageSize = 0 then pageSize else l.length % pageSize) := by
  refine ⟨?_, ?_, ?_, ?_, ?_⟩
  · simp [paginatedProducts]
  · intro k hk
    rw [paginatedProducts, List.getElem?_take_of_lt hk, List.getElem?_drop]
  · intro h
    rw [paginatedProducts, List.drop_eq_nil_of_le h, List.take_nil]
  · have hbase := flatten_pages pageSize (by simp [pageSize]) l.length l rfl
    exact hbase
  · intro hl
    have := last_page_length pageSize (by simp [pageSize]) l hl
    rw [paginatedProducts]
    exact this

/-- Witness for C2 at page 2 of a concrete three-element list. -/
theorem paginate_window_and_reconstruct_witness :
    (1 ≤ 2)
    ∧ ((paginatedProducts [prodA, prodB, prodA2] 2).length =
        min pageSize ([prodA, prodB, prodA2].length - (2 - 1) * pageSize)
      ∧ (∀ k, k < pageSize →
          (paginatedProducts [prodA, prodB, prodA2] 2)[k]? =
            [prodA, prodB, prodA2][(2 - 1) * pageSize + k]?)
      ∧ ([prodA, prodB, prodA2].length ≤ (2 - 1) * pageSize →
          paginatedProducts [prodA, prodB, prodA2] 2 = [])
      ∧ ((List.range (([prodA, prodB, prodA2].length + pageSize - 1) / pageSize)).map
          (fun k => paginatedProducts [prodA, prodB, prodA2] (k + 1))).flatten =
          [prodA, prodB, prodA2]
      ∧ (0 < [prodA, prodB, prodA2].length →
          (paginatedProducts [prodA, prodB, prodA2]
              (([prodA, prodB, prodA2].length + pageSize - 1) / pageSize)).length =
            if [prodA, prodB, prodA2].length % pageSize = 0 then pageSize
            else [prodA, prodB, prodA2].length % pageSize)) :=
  ⟨by decide, paginate_window_and_reconstruct [prodA, prodB, prodA2] 2 (by decide)⟩

/-- The comparator result `localeCompare a b ≤ 0` says exactly `a ≤ b`. -/
theorem lexLt_asymm : ∀ l1 l2 : List Char, lexLt l1 l2 = true → lexLt l2 l1 = false := by
  intro l1
  induction l1 with
  | nil =>
    intro l2 h
    cases l2 with
    | nil => rfl
    | cons b bs => rfl
  | cons a as ih =>
    intro l2 h
    cases l2 with
    | nil => exact absurd h (by simp [lexLt])
    | cons b bs =>
      simp only [lexLt] at h ⊢
      by_cases hab : a < b
      · rw [if_neg (lt_asymm hab), if_pos hab]
      · rw [if_neg hab] at h
        by_cases hba : b < a
        · rw [if_pos hba] at h
          exact absurd h (by simp)
        · rw [if_neg hba] at h
          rw [if_neg hba, if_neg hab]
          exact ih bs h

theorem lexLt_trans : ∀ l1 l2 l3 : List Char,
    lexLt l1 l2 = true → lexLt l2 l3 = true → lexLt l1 l3 = true := by
  intro l1
  induction l1 with
  | nil =>
    intro l2 l3 h1 h2
    cases l2 with
    | nil => exact h2
    | cons b bs =>
      cases l3 with
      | nil => exact absurd h2 (by simp [lexLt])
      | cons c cs => rfl
  | cons a as ih =>
    intro l2 l3 h1 h2
    cases l2 with
    | nil => exact absurd h1 (by simp [lexLt])
    | cons b bs =>
      cases l3 with
      | nil => exact absurd h2 (by simp [lexLt])
      | cons c cs =>
        simp only [lexLt] at h1 h2 ⊢
        by_cases hab : a < b
        · by_cases hbc : b < c
          · rw [if_pos (lt_trans hab hbc)]
          · by_cases hcb : c < b
            · rw [if_pos hab] at h1
              rw [if_neg hbc, if_pos hcb] at h2
              exact absurd h2 (by simp)
            · have hbec : b = c := le_antisymm (not_lt.mp hcb) (not_lt.mp hbc)
              rw [if_pos (hbec ▸ hab)]
        · by_cases hba : b < a
          · rw [if_neg hab, if_pos hba] at h1
            exact absurd h1 (by simp)
          · have haeb : a = b := le_antisymm (not_lt.mp hba) (not_lt.mp hab)
            rw [if_neg hab, if_neg hba] at h1
            by_cases hbc : b < c
            · rw [if_pos (haeb ▸ hbc)]
            · by_cases hcb : c < b
              · rw [if_neg hbc, if_pos hcb] at h2
                exact absurd h2 (by simp)
              · have hbec : b = c := le_antisymm (not_lt.mp hcb) (not_lt.mp hbc)
                rw [if_neg hbc, if_neg hcb] at h2
                rw [if_neg (haeb ▸ hbc), if_neg (haeb ▸ hcb)]
                exact ih bs cs h1 h2

theorem lexLt_conn : ∀ l1 l2 : List Char,
    lexLt l1 l2 = false → lexLt l2 l1 = false → l1 = l2 := by
  intro l1
  induction l1 with
  | nil =>
    intro l2 h1 _
    cases l2 with
    | nil => rfl
    | cons b bs => exact absurd h1 (by simp [lexLt])
  | cons a as ih =>
    intro l2 h1 h2
    cases l2 with
    | nil => exact absurd h2 (by simp [lexLt])
    | cons b bs =>
      simp only [lexLt] at h1 h2
      by_cases hab : a < b
      · rw [if_pos hab] at h1
        exact absurd h1 (by simp)
      · by_cases hba : b < a
        · rw [if_pos hba] at h2
          exact absurd h2 (by simp)
        · have haeb : a = b := le_antisymm (not_lt.mp hba) (not_lt.mp hab)
          rw [if_neg hab, if_neg hba] at h1
          rw [if_neg hba, if_neg hab] at h2
          rw [haeb, ih bs h1 h2]

theorem lexLt_le_trans {u v w : List Char} (h1 : lexLt v u = false)
    (h2 : lexLt w v = false) : lexLt w u = false := by
  cases hwu : lexLt w u with
  | false => rfl
  | true =>
    exfalso
    cases huv : lexLt u v with
    | true =>
      have hwv := lexLt_trans w u v hwu huv
      rw [hwv] at h2
      simp at h2
    | false =>
      have hveu : v = u := lexLt_conn v u h1 huv
      rw [hveu, hwu] at h2
      simp at h2

theorem lexLt_le_total (u v : List Char) :
    lexLt u v = false ∨ lexLt v u = false := by
  cases h : lexLt u v with
  | false => exact .inl rfl
  | true => exact .inr (lexLt_asymm u v h)

/-- The comparator result `localeCompare a b ≤ 0` says exactly that `b` is
not strictly below `a`. -/
theorem localeCompare_nonpos {a b : String} :
    localeCompare a b ≤ 0 ↔ lexLt b.data a.data = false := by
  rw [localeCompare]
  by_cases h1 : lexLt a.data b.data = true
  · rw [if_pos h1]
    constructor
    · intro _
      exact lexLt_asymm _ _ h1
    · intro _
      norm_num
  · rw [if_neg h1]
    by_cases h2 : lexLt b.data a.data = true
    · rw [if_pos h2]
      constructor
      · intro hc
        norm_num at hc
      · intro hc
        rw [h2] at hc
        exact absurd hc (by simp)
    · rw [if_neg h2]
      constructor
      · intro _
        revert h2
        cases lexLt b.data a.data <;> simp
      · intro _
        norm_num

/-- Records put on both sides by `localeCompare` are equal strings. -/
theorem eq_of_localeCompare_both {a b : String} (h1 : localeCompare a b ≤ 0)
    (h2 : localeCompare b a ≤ 0) : a = b := by
  have e := lexLt_conn a.data b.data (localeCompare_nonpos.mp h2)
    (localeCompare_nonpos.mp h1)
  cases a with
  | mk da =>
    cases b with
    | mk db => exact congrArg String.mk e

/-- Every sortable column reads either a string field or a numeric field
(the comparator's two typed branches; the mixed fallback never fires for a
fixed column). -/
theorem getColumn_shape (c : SortColumn) :
    (∃ f : Product → String, ∀ p, getColumn p c = .str (f p)) ∨
    (∃ f : Product → Int, ∀ p, getColumn p c = .num (f p)) := by
  cases c
  · exact .inl ⟨Product.title, fun p => rfl⟩
  · exact .inr ⟨Product.price, fun p => rfl⟩
  · exact .inr ⟨Product.rating, fun p => rfl⟩
  · exact .inl ⟨Product.brand, fun p => rfl⟩
  · exact .inl ⟨Product.category, fun p => rfl⟩

/-- The comparator order is transitive (for any fixed column and
direction). -/
theorem productCompare_trans (c : SortColumn) (d : SortDirection) (x y z : Product)
    (h1 : productCompare c d x y ≤ 0) (h2 : productCompare c d y z ≤ 0) :
    productCompare c d x z ≤ 0 := by
  rcases getColumn_shape c with ⟨f, hf⟩ | ⟨f, hf⟩ <;> cases d <;>
      simp only [productCompare, hf, compareVals] at h1 h2 ⊢
  · rw [localeCompare_nonpos] at h1 h2 ⊢
    exact lexLt_le_trans h1 h2
  · rw [localeCompare_nonpos] at h1 h2 ⊢
    exact lexLt_le_trans h2 h1
  · omega
  · omega

/-- The comparator order is total. -/
theorem productCompare_total (c : SortColumn) (d : SortDirection) (x y : Product) :
    productCompare c d x y ≤ 0 ∨ productCompare c d y x ≤ 0 := by
  rcases getColumn_shape c with ⟨f, hf⟩ | ⟨f, hf⟩ <;> cases d <;>
      simp only [productCompare, hf, compareVals]
  · rw [localeCompare_nonpos, localeCompare_nonpos]
    exact lexLt_le_total _ _
  · rw [localeCompare_nonpos, localeCompare_nonpos]
    exact lexLt_le_total _ _
  · omega
  · omega

/-- Two records that the comparator puts on both sides have equal sort
keys. -/
theorem productCompare_key_eq (c : SortColumn) (d : SortDirection) (x y : Product)
    (h1 : productCompare c d x y ≤ 0) (h2 : productCompare c d y x ≤ 0) :
    getColumn x c = getColumn y c := by
  rcases getColumn_shape c with ⟨f, hf⟩ | ⟨f, hf⟩ <;> cases d <;>
      simp only [productCompare, hf, compareVals] at h1 h2 <;> rw [hf x, hf y]
  · rw [eq_of_localeCompare_both h1 h2]
  · rw [eq_of_localeCompare_both h2 h1]
  · have : f x = f y := by omega
    rw [this]
  · have : f x = f y := by omega
    rw [this]

/-- Reversing the direction swaps the comparator's operands. -/
theorem productCompare_desc_flip (c : SortColumn) (x y : Product) :
    productCompare c .desc x y = productCompare c .asc y x := by
  rcases getColumn_shape c with ⟨f, hf⟩ | ⟨f, hf⟩ <;>
    simp only [productCompare, hf, compareVals]

/-- The boolean order fed to the stable sort, Prop side, transitivity. -/
theorem productLeB_trans (c : SortColumn) (d : SortDirection) (x y z : Product)
    (h1 : decide (productCompare c d x y ≤ 0) = true)
    (h2 : decide (productCompare c d y z ≤ 0) = true) :
    decide (productCompare c d x z ≤ 0) = true :=
  decide_eq_true
    (productCompare_trans c d x y z (of_decide_eq_true h1) (of_decide_eq_true h2))

/-- The boolean order fed to the stable sort, Prop side, totality. -/
theorem productLeB_total (c : SortColumn) (d : SortDirection) (x y : Product) :
    (decide (productCompare c d x y ≤ 0) || decide (productCompare c d y x ≤ 0)) = true := by
  rcases productCompare_total c d x y with h | h
  · rw [decide_eq_true h, Bool.true_or]
  · rw [decide_eq_true h, Bool.or_true]

/-- C6: the sort is stable: any two records with equal sort keys that occur
in a given relative order in the input occur in the same relative order in
the output, for every column and either direction. -/
theorem sort_stable_pairs (l : List Product) (c : SortColumn) (d : SortDirection)
    (a b : Product) (hkey : productCompare c d a b = 0)
    (hsub : List.Sublist [a, b] l) :
    List.Sublist [a, b] (sortProducts l c d) := by
  have hab : (fun x y : Product => decide (productCompare c d x y ≤ 0)) a b = true := by
    simp only [hkey]
    decide
  exact List.pair_sublist_mergeSort
    (fun x y z => productLeB_trans c d x y z)
    (fun x y => productLeB_total c d x y) hab hsub

/-- Witness for C6: two records with the same title keep their input order
when sorting by title, descending. -/
theorem sort_stable_pairs_witness :
    (productCompare .title .desc prodA prodA2 = 0
      ∧ List.Sublist [prodA, prodA2] [prodA, prodB, prodA2])
    ∧ List.Sublist [prodA, prodA2] (sortProducts [prodA, prodB, prodA2] .title .desc) :=
  ⟨⟨by decide, by decide⟩,
    sort_stable_pairs [prodA, prodB, prodA2] .title .desc prodA prodA2
      (by decide) (by decide)⟩

/-- A permutation between two lists sorted by the same order `le` that is
antisymmetric on the first list's members forces the lists to be equal. -/
theorem sorted_perm_unique {α : Type} {le : α → α → Prop} :
    ∀ (l1 l2 : List α), l1.Perm l2 → l1.Pairwise le → l2.Pairwise le →
      (∀ x, x ∈ l1 → ∀ y, y ∈ l1 → le x y → le y x → x = y) → l1 = l2 := by
  intro l1
  induction l1 with
  | nil =>
    intro l2 hperm _ _ _
    exact (List.perm_nil.mp hperm.symm).symm
  | cons a t ih =>
    intro l2 hperm h1 h2 anti
    cases l2 with
    | nil =>
      have := List.perm_nil.mp hperm
      simp at this
    | cons b t2 =>
      have hab : a = b := by
        by_contra hne
        have hbmem : b ∈ a :: t := hperm.mem_iff.mpr (List.mem_cons_self b t2)
        have hamem : a ∈ b :: t2 := hperm.mem_iff.mp (List.mem_cons_self a t)
        have hb_t : b ∈ t := by
          rcases List.mem_cons.mp hbmem with h | h
          · exact absurd h.symm hne
          · exact h
        have ha_t2 : a ∈ t2 := by
          rcases List.mem_cons.mp hamem with h | h
          · exact absurd h hne
          · exact h
        have hab1 : le a b := List.rel_of_pairwise_cons h1 hb_t
        have hba : le b a := List.rel_of_pairwise_cons h2 ha_t2
        exact hne (anti a (List.mem_cons_self a t) b hbmem hab1 hba)
      subst hab
      have ht : t.Perm t2 := hperm.cons_inv
      have hrec := ih t2 ht h1.tail h2.tail
        (fun x hx y hy => anti x (List.mem_cons_of_mem a hx) y (List.mem_cons_of_mem a hy))
      rw [hrec]

/-- C7: for a column whose keys are pairwise distinct in the list, sorting
descending after sorting ascending yields exactly the reversal of the
ascending result. -/
theorem sort_desc_reverses_asc (l : List Product) (c : SortColumn)
    (hkeys : l.Pairwise fun a b => getColumn a c ≠ getColumn b c) :
    sortProducts (sortProducts l c .asc) c .desc = (sortProducts l c .asc).reverse := by
  have hSperm : (sortProducts l c .asc).Perm l :=
    List.mergeSort_perm l _
  have hS : (sortProducts l c .asc).Pairwise
      (fun a b => productCompare c .asc a b ≤ 0) :=
    (List.sorted_mergeSort (fun x y z => productLeB_trans c .asc x y z)
      (fun x y => productLeB_total c .asc x y) l).imp
      (fun h => of_decide_eq_true h)
  have hRperm : (sortProducts (sortProducts l c .asc) c .desc).Perm
      (sortProducts l c .asc) :=
    List.mergeSort_perm _ _
  have hR : (sortProducts (sortProducts l c .asc) c .desc).Pairwise
      (fun a b => productCompare c .desc a b ≤ 0) :=
    (List.sorted_mergeSort (fun x y z => productLeB_trans c .desc x y z)
      (fun x y => productLeB_total c .desc x y) _).imp
      (fun h => of_decide_eq_true h)
  have hRev : (sortProducts l c .asc).reverse.Pairwise
      (fun a b => productCompare c .desc a b ≤ 0) := by
    rw [List.pairwise_reverse]
    exact hS.imp (fun h => by rw [productCompare_desc_flip]; exact h)
  have hperm2 : (sortProducts (sortProducts l c .asc) c .desc).Perm
      (sortProducts l c .asc).reverse :=
    hRperm.trans ((sortProducts l c .asc).reverse_perm).symm
  have hkeysS : (sortProducts (sortProducts l c .asc) c .desc).Pairwise
      (fun a b => getColumn a c ≠ getColumn b c) := by
    have h1 : (sortProducts l c .asc).Pairwise
        (fun a b => getColumn a c ≠ getColumn b c) :=
      (hSperm.pairwise_iff (fun {_ _} h => Ne.symm h)).mpr hkeys
    exact (hRperm.pairwise_iff (fun {_ _} h => Ne.symm h)).mpr h1
  apply sorted_perm_unique _ _ hperm2 hR hRev
  intro x hx y hy hxy hyx
  by_contra hne
  have hkne : getColumn x c ≠ getColumn y c :=
    hkeysS.forall (fun _ _ h => Ne.symm h) hx hy hne
  exact hkne (productCompare_key_eq c .desc x y hxy hyx)

/-- Witness for C7 on a concrete two-record list with distinct titles. -/
theorem sort_desc_reverses_asc_witness :
    ([prodA, prodB].Pairwise fun a b => getColumn a .title ≠ getColumn b .title)
    ∧ sortProducts (sortProducts [prodA, prodB] .title .asc) .title .desc =
        (sortProducts [prodA, prodB] .title .asc).reverse :=
  ⟨by decide, sort_desc_reverses_asc [prodA, prodB] .title (by decide)⟩

/-- C9: sorting allocates a copy (`slice()`) and sorts the copy in place:
the caller's array (the filtered view at `fr`) is untouched, the result is
a distinct array, and it holds a reordering (permutation) of the caller's
records. -/
theorem sort_engine_frame (h : Heap) (fr : Nat) (c : SortColumn) (d : SortDirection)
    (hfr : fr < h.arrays.length) :
    (computeSortedRef h fr c d).1.read fr = h.read fr
    ∧ (computeSortedRef h fr c d).2 ≠ fr
    ∧ List.Perm ((computeSortedRef h fr c d).1.read (computeSortedRef h fr c d).2)
        (h.read fr) := by
  have hres : (computeSortedRef h fr c d).2 = h.arrays.length := rfl
  have harr : (computeSortedRef h fr c d).1.arrays =
      h.arrays ++ [jsSortBy (productCompare c d) (h.read fr)] := by
    show (h.arrays ++ [h.read fr]).set h.arrays.length
        (jsSortBy (productCompare c d) ((h.arrays ++ [h.read fr]).getD h.arrays.length []))
      = h.arrays ++ [jsSortBy (productCompare c d) (h.read fr)]
    have hget : (h.arrays ++ [h.read fr]).getD h.arrays.length [] = h.read fr := by
      rw [List.getD_eq_getElem?_getD, List.getElem?_concat_length]
      rfl
    rw [hget, List.set_append_right _ _ (Nat.le_refl _), Nat.sub_self]
    rfl
  refine ⟨?_, ?_, ?_⟩
  · simp only [Heap.read, harr]
    rw [List.getD_eq_getElem?_getD, List.getD_eq_getElem?_getD,
      List.getElem?_append_left hfr]
  · rw [hres]
    omega
  · simp only [Heap.read, harr, hres]
    rw [List.getD_eq_getElem?_getD, List.getElem?_concat_length]
    exact List.mergeSort_perm _ _


/-- Witness for C9 on a one-array heap. -/
theorem sort_engine_frame_witness :
    (0 < (Heap.mk [[prodB, prodA]]).arrays.length)
    ∧ ((computeSortedRef (Heap.mk [[prodB, prodA]]) 0 .title .asc).1.read 0 =
        (Heap.mk [[prodB, prodA]]).read 0
      ∧ (computeSortedRef (Heap.mk [[prodB, prodA]]) 0 .title .asc).2 ≠ 0
      ∧ List.Perm
          ((computeSortedRef (Heap.mk [[prodB, prodA]]) 0 .title .asc).1.read
            (computeSortedRef (Heap.mk [[prodB, prodA]]) 0 .title .asc).2)
          ((Heap.mk [[prodB, prodA]]).read 0)) :=
  ⟨by decide, sort_engine_frame (Heap.mk [[prodB, prodA]]) 0 .title .asc (by decide)⟩

/-- The skip offsets issued by the fetch loop from `skip` upward are the
multiples of `limit` shifted by `skip`, one per remaining page. -/
theorem fetchSkips_eq_range (total : Nat) :
    ∀ skip : Nat, fetchSkips total skip =
      (List.range ((total - skip + limit - 1) / limit)).map (fun j => skip + j * limit) := by
  intro skip
  induction skip using fetchSkips.induct total with
  | case1 x hx ih =>
    rw [fetchSkips, if_pos hx, ih]
    have h30 : 0 < limit := by norm_num [limit]
    have hcnt : (total - x + limit - 1) / limit =
        (total - (x + limit) + limit - 1) / limit + 1 := by
      have hstep := ceil_div_succ_step (n := total - x) h30 (by omega)
      rw [hstep, Nat.sub_sub]
    rw [hcnt, List.range_succ_eq_map, List.map_cons, List.map_map]
    rw [Nat.zero_mul, Nat.add_zero]
    congr 1
    apply List.map_congr_left
    intro j hj
    simp only [Function.comp_apply, Nat.succ_mul, Nat.add_mul, Nat.one_mul]
    omega
  | case2 x hx =>
    rw [fetchSkips, if_neg hx]
    have h0 : total - x = 0 := by omega
    have hlt : limit - 1 < limit := by norm_num [limit]
    rw [h0, Nat.zero_add, Nat.div_eq_of_lt hlt]
    simp

/-- The fetch loop's accumulated records are the concatenation, in request
order, of the page returned at each issued skip. -/
theorem fetchConcat_eq_flatten (pages : Nat → Option (List Product)) (total : Nat) :
    ∀ skip : Nat, fetchConcat pages total skip =
      ((fetchSkips total skip).map (fun s => (pages s).getD [])).flatten := by
  intro skip
  induction skip using fetchSkips.induct total with
  | case1 x hx ih =>
    rw [fetchConcat, if_pos hx, ih]
    conv_rhs => rw [fetchSkips, if_pos hx]
    rw [List.map_cons, List.flatten_cons]
  | case2 x hx =>
    rw [fetchConcat, if_neg hx]
    conv_rhs => rw [fetchSkips, if_neg hx]
    rfl

/-- C3: the fetcher issues requests at offsets 0, L, 2L, ... (L = 30),
stopping at the reported total; the result concatenates the pages in
response order, so its length is the sum of the page lengths; for a total
of 45 exactly the two skips 0 and 30 are issued; a response without a
`products` field contributes exactly an empty page. -/
theorem fetch_pages_sequential_concat (total : Nat)
    (pages : Nat → Option (List Product)) (p0 p1 : List Product)
    (h0 : pages 0 = some p0) (h1 : pages 30 = some p1) :
    fetchSkips total 0 =
      (List.range ((total + limit - 1) / limit)).map (fun j => j * limit)
    ∧ fetchConcat pages total 0 =
        ((fetchSkips total 0).map (fun s => (pages s).getD [])).flatten
    ∧ fetchSkips 45 0 = [0, 30]
    ∧ (fetchConcat pages 45 0).length = p0.length + p1.length
    ∧ (∀ s, pages s = none →
        fetchConcat pages total 0 =
          fetchConcat (fun x => if x = s then some [] else pages x) total 0) := by
  have hskips45 : fetchSkips 45 0 = [0, 30] := by
    simp [fetchSkips, limit]
  refine ⟨?_, fetchConcat_eq_flatten pages total 0, hskips45, ?_, ?_⟩
  · rw [fetchSkips_eq_range total 0]
    simp
  · rw [fetchConcat_eq_flatten pages 45 0, hskips45]
    rw [List.map_cons, List.map_cons, List.map_nil, h0, h1]
    simp
  · intro s hs
    rw [fetchConcat_eq_flatten pages total 0,
      fetchConcat_eq_flatten (fun x => if x = s then some [] else pages x) total 0]
    congr 1
    apply List.map_congr_left
    intro x hx
    by_cases hxs : x = s
    · subst hxs
      rw [hs, if_pos rfl]
      rfl
    · rw [if_neg hxs]

/-- Witness for C3 with a concrete total and two concrete pages. -/
theorem fetch_pages_sequential_concat_witness :
    (pagesW 0 = some [prodA] ∧ pagesW 30 = some [])
    ∧ (fetchSkips 45 0 =
        (List.range ((45 + limit - 1) / limit)).map (fun j => j * limit)
      ∧ fetchConcat pagesW 45 0 =
          ((fetchSkips 45 0).map (fun s => (pagesW s).getD [])).flatten
      ∧ fetchSkips 45 0 = [0, 30]
      ∧ (fetchConcat pagesW 45 0).length =
          [prodA].length + List.length ([] : List Product)
      ∧ (∀ s, pagesW s = none →
          fetchConcat pagesW 45 0 =
            fetchConcat (fun x => if x = s then some [] else pagesW x) 45 0)) :=
  ⟨⟨rfl, rfl⟩, fetch_pages_sequential_concat 45 pagesW [prodA] [] rfl rfl⟩

/-- If some issued request throws, the whole loop throws (the earlier
requests may throw first, but the loop never completes normally). -/
theorem fetchPagesE_error_of_mem (req : Nat → Except Unit (Option (List Product)))
    (total : Nat) :
    ∀ skip s, s ∈ fetchSkips total skip → req s = .error () →
      fetchPagesE req total skip = .error () := by
  intro skip
  induction skip using fetchSkips.induct total with
  | case1 x hx ih =>
    intro s hmem herr
    rw [fetchSkips, if_pos hx] at hmem
    rw [fetchPagesE, if_pos hx]
    rcases List.mem_cons.mp hmem with heq | htail
    · subst heq
      rw [herr]
      rfl
    · cases hreq : req x with
      | error e =>
        cases e
        rfl
      | ok res =>
        rw [ih s htail herr]
        rfl
  | case2 x hx =>
    intro s hmem herr
    rw [fetchSkips, if_neg hx] at hmem
    simp at hmem

/-- C4: if any issued page request throws, the fetch fails atomically: the
products collection stays empty (accumulated pages are discarded), the
loading flag ends false (the `finally`), and the orchestrator returns
normally (it is a total function into final states). -/
theorem fetch_error_atomic (probe : Except Unit ProbeResp)
    (req : Nat → Except Unit (Option (List Product))) (pr : ProbeResp)
    (hp : probe = .ok pr) (s : Nat)
    (hs : s ∈ fetchSkips (jsOrDefault pr.total 100) 0)
    (he : req s = .error ()) :
    (runMounted probe req).1 = [] ∧ (runMounted probe req).2 = false := by
  have hbody := fetchPagesE_error_of_mem req (jsOrDefault pr.total 100) 0 s hs he
  subst hp
  rw [runMounted]
  simp only [bind, Except.bind, hbody]
  simp

/-- Witness for C4: the probe reports 7 records and the first (and only)
page request throws. -/
theorem fetch_error_atomic_witness :
    ((Except.ok ⟨some 7⟩ : Except Unit ProbeResp) = .ok ⟨some 7⟩
      ∧ 0 ∈ fetchSkips (jsOrDefault (ProbeResp.mk (some 7)).total 100) 0
      ∧ (fun _ : Nat => (Except.error () : Except Unit (Option (List Product)))) 0 =
          .error ())
    ∧ ((runMounted (.ok ⟨some 7⟩)
          (fun _ => (Except.error () : Except Unit (Option (List Product))))).1 = []
      ∧ (runMounted (.ok ⟨some 7⟩)
          (fun _ => (Except.error () : Except Unit (Option (List Product))))).2 = false) :=
  ⟨⟨rfl, by simp [fetchSkips, limit, jsOrDefault], rfl⟩,
    fetch_error_atomic (.ok ⟨some 7⟩) _ ⟨some 7⟩ rfl 0
      (by simp [fetchSkips, limit, jsOrDefault]) rfl⟩

/-- Sorting a two-element array with a comparator keeps the order exactly
when the comparator accepts the pair. -/
theorem mergeSort_pair {α : Type} (le : α → α → Bool) (a b : α) :
    List.mergeSort [a, b] le = if le a b then [a, b] else [b, a] := by
  simp [List.mergeSort, List.splitInTwo, List.splitAt, List.splitAt.go, List.merge]

/-- C5 evidence: processing a sort-direction toggle leaves the page index
unchanged (here 3) even though the sorted result changes, because the
watcher observes the `sort` ref shallowly; a genuine query change does
reset the page to 1, and a page selection alone only changes the page. -/
theorem sort_change_does_not_reset_page :
    (step sampleState .toggleSortDirection).page = 3
    ∧ (step sampleState .toggleSortDirection).sort.direction = .desc
    ∧ sortProducts (filteredProducts sampleState.products sampleState.search)
        (step sampleState .toggleSortDirection).sort.column
        (step sampleState .toggleSortDirection).sort.direction
      ≠ sortProducts (filteredProducts sampleState.products sampleState.search)
        sampleState.sort.column sampleState.sort.direction
    ∧ (step sampleState (.setSearch "zzz")).page = 1
    ∧ (step sampleState (.setPage 5)).page = 5 := by
  refine ⟨rfl, rfl, ?_, rfl, rfl⟩
  show sortProducts [prodA, prodB] .title .desc ≠ sortProducts [prodA, prodB] .title .asc
  rw [sortProducts, sortProducts, jsSortBy, jsSortBy, mergeSort_pair, mergeSort_pair]
  norm_num
  decide

end NuxtLab
